/-
Verification of the voxel-chunk core of the `blocks` repository
(src/client/src/{identifier,chunky,block}.rs) via a shallow embedding.

Modelling conventions:
* Rust `String` is modelled as `List Char` (`Str`), so that splitting and
  per-character validation are plain structural recursion.
* Rust `Vec<u16>` (the voxel array) is modelled as `VecU16`: a length plus a
  total index function.  All reads the source performs are bounds-guarded, so
  the function values beyond `len` are never observed.
* `u16` truncation (`as u16`) and release-mode wrap-around of `+ 1` are kept
  via explicit `% 65536`.
* Rust panics (vector indexing out of bounds, `Option::unwrap` on `None`) are
  modelled by returning `none` from an `Option`-valued function.
* `f32` coordinates are modelled by `ℚ`.  Every arithmetic operation the
  source performs on them (sums of integers and halves of magnitude below
  2^23) is exact in `f32`, so this is faithful on the values that occur.
* The global block registry (a string-keyed map, registry.rs) is passed
  explicitly as a lookup function `reg : Str → Option Block`, matching
  `get_block_from_registry_by_string`.
-/
import Mathlib

set_option autoImplicit false

namespace Blocks

/-- Rust `String`, modelled as a list of characters. -/
abbrev Str := List Char

/-! ## identifier.rs -/

/-- The valid-character table of `Identifier::validate` (identifier.rs:63). -/
def validChars : Str := "abcdefghijklmnopqrstuvwxyz0123456789_-.".toList

/-- `IdValidationError` (identifier.rs:5-17). -/
inductive IdValidationError where
  | MissingColon : Str → IdValidationError
  | TooManyColons : Str → IdValidationError
  | InvalidCharacters : Str → Str → IdValidationError
deriving DecidableEq

/-- `Identifier` (identifier.rs:20-23). -/
structure Identifier where
  ns : Str
  name : Str
deriving DecidableEq

/-- Rust `str::split(":").collect::<Vec<_>>()`: splits at every `':'`;
the empty string yields `[[]]`, and separators at the ends yield empty
parts, exactly as in Rust. -/
def splitOnColon : Str → List Str
  | [] => [[]]
  | c :: rest =>
    if c = ':' then [] :: splitOnColon rest
    else
      match splitOnColon rest with
      | [] => [[c]]
      | h :: t => (c :: h) :: t

/-- `Identifier::as_string` (identifier.rs:60): `format!("{}:{}", ns, name)`. -/
def Identifier.as_string (i : Identifier) : Str := i.ns ++ ':' :: i.name

/-- `Identifier::validate` (identifier.rs:62-81). -/
def Identifier.validate (i : Identifier) : Except IdValidationError Unit :=
  let bad_ns := i.ns.filter (fun c => !(validChars.contains c))
  let bad_name := i.name.filter (fun c => !(validChars.contains c))
  if bad_ns.length > 0 || bad_name.length > 0 then
    .error (.InvalidCharacters i.as_string (bad_ns ++ bad_name))
  else
    .ok ()

/-- `Identifier::from_str` (identifier.rs:37-54): split on `':'`; a split of
length ≠ 2 is `MissingColon` (length 1) or `TooManyColons`; otherwise the two
parts are validated. -/
def Identifier.from_str (s : Str) : Except IdValidationError Identifier :=
  match splitOnColon s with
  | [a, b] =>
    match Identifier.validate ⟨a, b⟩ with
    | .error e => .error e
    | .ok _ => .ok ⟨a, b⟩
  | splits =>
    if splits.length = 1 then .error (.MissingColon s)
    else .error (.TooManyColons s)

/-- `Identifier::from` (identifier.rs:33-35) just delegates to `from_str`. -/
def Identifier.fromString (s : Str) : Except IdValidationError Identifier :=
  Identifier.from_str s

/-! ## block.rs: geometric data -/

/-- `bevy::math::Vec3`, components modelled by `ℚ` (exact on the integer and
half-integer values the source ever computes). -/
structure Vec3 where
  x : ℚ
  y : ℚ
  z : ℚ
deriving DecidableEq

/-- `bevy::sprite::Rect`: min/max corners of a texture region. -/
structure Rect where
  minx : ℚ
  miny : ℚ
  maxx : ℚ
  maxy : ℚ
deriving DecidableEq

/-- `Block` (block.rs:126-135).  Only the identifier and the six per-face
texture rectangles are relevant to the claims. -/
structure Block where
  id : Identifier
  texture_front : Rect
  texture_back : Rect
  texture_top : Rect
  texture_btm : Rect
  texture_left : Rect
  texture_right : Rect
deriving DecidableEq

/-- `Block::get_identifier` (block.rs:138). -/
def Block.get_identifier (b : Block) : Identifier := b.id

/-- `Block::get_uvs_top` (block.rs:140-149): 4 UVs in the source's push order. -/
def Block.get_uvs_top (b : Block) : List (ℚ × ℚ) :=
  [(b.texture_top.minx, b.texture_top.miny),
   (b.texture_top.maxx, b.texture_top.miny),
   (b.texture_top.maxx, b.texture_top.maxy),
   (b.texture_top.minx, b.texture_top.maxy)]

/-- `Block::get_uvs_bottom` (block.rs:151-160). -/
def Block.get_uvs_bottom (b : Block) : List (ℚ × ℚ) :=
  [(b.texture_btm.maxx, b.texture_btm.miny),
   (b.texture_btm.minx, b.texture_btm.miny),
   (b.texture_btm.minx, b.texture_btm.maxy),
   (b.texture_btm.maxx, b.texture_btm.maxy)]

/-- `Block::get_uvs_left` (block.rs:162-171). -/
def Block.get_uvs_left (b : Block) : List (ℚ × ℚ) :=
  [(b.texture_left.maxx, b.texture_left.miny),
   (b.texture_left.minx, b.texture_left.miny),
   (b.texture_left.minx, b.texture_left.maxy),
   (b.texture_left.maxx, b.texture_left.maxy)]

/-- `Block::get_uvs_right` (block.rs:173-182). -/
def Block.get_uvs_right (b : Block) : List (ℚ × ℚ) :=
  [(b.texture_right.minx, b.texture_right.miny),
   (b.texture_right.maxx, b.texture_right.miny),
   (b.texture_right.maxx, b.texture_right.maxy),
   (b.texture_right.minx, b.texture_right.maxy)]

/-- `Block::get_uvs_front` (block.rs:184-193). -/
def Block.get_uvs_front (b : Block) : List (ℚ × ℚ) :=
  [(b.texture_front.maxx, b.texture_front.miny),
   (b.texture_front.minx, b.texture_front.miny),
   (b.texture_front.minx, b.texture_front.maxy),
   (b.texture_front.maxx, b.texture_front.maxy)]

/-- `Block::get_uvs_back` (block.rs:195-204). -/
def Block.get_uvs_back (b : Block) : List (ℚ × ℚ) :=
  [(b.texture_back.maxx, b.texture_back.maxy),
   (b.texture_back.minx, b.texture_back.maxy),
   (b.texture_back.minx, b.texture_back.miny),
   (b.texture_back.maxx, b.texture_back.miny)]

/-- `VERTICES_TOP` (block.rs:11-16): per vertex, (position offset, "normal"). -/
def VERTICES_TOP : List (Vec3 × Vec3) :=
  [(⟨1/2, 1/2, -1/2⟩, ⟨0, 1, 0⟩),
   (⟨-1/2, 1/2, -1/2⟩, ⟨0, 1, 0⟩),
   (⟨-1/2, 1/2, 1/2⟩, ⟨0, 1, 0⟩),
   (⟨1/2, 1/2, 1/2⟩, ⟨0, 1, 0⟩)]

/-- `VERTICES_BOTTOM` (block.rs:18-23). -/
def VERTICES_BOTTOM : List (Vec3 × Vec3) :=
  [(⟨1/2, -1/2, 1/2⟩, ⟨0, -1, 0⟩),
   (⟨-1/2, -1/2, 1/2⟩, ⟨0, -1, 0⟩),
   (⟨-1/2, -1/2, -1/2⟩, ⟨0, -1, 0⟩),
   (⟨1/2, -1/2, -1/2⟩, ⟨0, -1, 0⟩)]

/-- `VERTICES_RIGHT` (block.rs:25-30).  Note the source's stored "normal" is
`[1,0,0]` although this face lies on the `-X` side of the cube. -/
def VERTICES_RIGHT : List (Vec3 × Vec3) :=
  [(⟨-1/2, 1/2, 1/2⟩, ⟨1, 0, 0⟩),
   (⟨-1/2, 1/2, -1/2⟩, ⟨1, 0, 0⟩),
   (⟨-1/2, -1/2, -1/2⟩, ⟨1, 0, 0⟩),
   (⟨-1/2, -1/2, 1/2⟩, ⟨1, 0, 0⟩)]

/-- `VERTICES_LEFT` (block.rs:32-37). -/
def VERTICES_LEFT : List (Vec3 × Vec3) :=
  [(⟨1/2, 1/2, -1/2⟩, ⟨1, 0, 0⟩),
   (⟨1/2, 1/2, 1/2⟩, ⟨1, 0, 0⟩),
   (⟨1/2, -1/2, 1/2⟩, ⟨1, 0, 0⟩),
   (⟨1/2, -1/2, -1/2⟩, ⟨1, 0, 0⟩)]

/-- `VERTICES_FRONT` (block.rs:39-44). -/
def VERTICES_FRONT : List (Vec3 × Vec3) :=
  [(⟨-1/2, 1/2, -1/2⟩, ⟨0, 0, -1⟩),
   (⟨1/2, 1/2, -1/2⟩, ⟨0, 0, -1⟩),
   (⟨1/2, -1/2, -1/2⟩, ⟨0, 0, -1⟩),
   (⟨-1/2, -1/2, -1/2⟩, ⟨0, 0, -1⟩)]

/-- `VERTICES_BACK` (block.rs:46-51). -/
def VERTICES_BACK : List (Vec3 × Vec3) :=
  [(⟨-1/2, -1/2, 1/2⟩, ⟨0, 0, 1⟩),
   (⟨1/2, -1/2, 1/2⟩, ⟨0, 0, 1⟩),
   (⟨1/2, 1/2, 1/2⟩, ⟨0, 0, 1⟩),
   (⟨-1/2, 1/2, 1/2⟩, ⟨0, 0, 1⟩)]

/-! ## chunky.rs: the chunk store -/

/-- `CHUNK_SIZE` (chunky.rs:5). -/
def CHUNK_SIZE : Nat := 16

/-- `BLOCK_Y_SHIFT` (chunky.rs:7). -/
def BLOCK_Y_SHIFT : Nat := 4

/-- `BLOCK_Z_SHIFT` (chunky.rs:8). -/
def BLOCK_Z_SHIFT : Nat := 8

/-- `pos_as_index` (chunky.rs:180-183): bit-packing of the local coordinate. -/
def pos_as_index (local_x local_y local_z : Nat) : Nat :=
  local_x ||| local_y <<< BLOCK_Y_SHIFT ||| local_z <<< BLOCK_Z_SHIFT

/-- `index_as_pos` (chunky.rs:185-191). -/
def index_as_pos (index : Nat) : Nat × Nat × Nat :=
  (index &&& 0xF, index >>> BLOCK_Y_SHIFT &&& 0xF, index >>> BLOCK_Z_SHIFT &&& 0xF)

/-- Model of `Vec<u16>`: a length plus a total index function.  The source
only ever reads indices below `len` (each read is guarded), so values of
`get` at or beyond `len` are never observed. -/
structure VecU16 where
  len : Nat
  get : Nat → Nat

/-- `vec![v; n]`. -/
def VecU16.replicate (n v : Nat) : VecU16 := ⟨n, fun _ => v⟩

/-- `vec[i] = v` (the source only performs this with `i < len`). -/
def VecU16.set (a : VecU16) (i v : Nat) : VecU16 :=
  ⟨a.len, fun j => if j = i then v else a.get j⟩

/-- Guarded read: `some (vec[i])` when `i < len`, `none` otherwise. -/
def VecU16.get? (a : VecU16) (i : Nat) : Option Nat :=
  if i < a.len then some (a.get i) else none

/-- The scan `for block_id in &self.blocks { if *block_id == v { … } }`
(chunky.rs:111-118): does any entry equal `v`? -/
def VecU16.containsVal (a : VecU16) (v : Nat) : Bool :=
  (List.range a.len).any (fun i => a.get i == v)

/-- Specification-side count of zero entries of the voxel array. -/
def VecU16.countZeros (a : VecU16) : Nat :=
  (List.range a.len).countP (fun i => a.get i == 0)

/-- `Chunk` (chunky.rs:10-28).  `ids` is the palette (`Vec<Option<String>>`),
`blocks` the flat voxel array of local ids (`Vec<u16>`). -/
structure Chunk where
  is_empty_field : Bool
  air_count : Nat
  chunk_pos : Vec3
  ids : List (Option Str)
  blocks : VecU16

/-- `Chunk::new` (chunky.rs:36-46). -/
def Chunk.new (pos : Vec3) : Chunk :=
  { is_empty_field := true
    air_count := CHUNK_SIZE ^ 3
    chunk_pos := pos
    ids := []
    blocks := VecU16.replicate (CHUNK_SIZE ^ 3) 0 }

/-- `Chunk::is_empty` (chunky.rs:50-52). -/
def Chunk.is_empty (c : Chunk) : Bool := c.is_empty_field

/-- `Chunk::get_local_block_id` (chunky.rs:141-149). -/
def Chunk.get_local_block_id (c : Chunk) (x y z : Nat) : Nat :=
  let index := pos_as_index x y z
  if index < c.blocks.len then c.blocks.get index else 0

/-- `Chunk::get_block` (chunky.rs:151-163).  The source indexes
`self.ids[block_id - 1]` unguarded; in every state whose voxel values point
into the palette (all states reachable by `add_block`) that index is in
bounds, and the out-of-bounds case is modelled as `none`. -/
def Chunk.get_block (reg : Str → Option Block) (c : Chunk) (x y z : Nat) : Option Block :=
  let block_id := c.get_local_block_id x y z
  if block_id > 0 then
    match c.ids.get? (block_id - 1) with
    | some (some s) => reg s
    | _ => none
  else
    none

/-- `Chunk::has_block_at` (chunky.rs:165-169). -/
def Chunk.has_block_at (c : Chunk) (x y z : Nat) : Bool :=
  decide (c.get_local_block_id x y z > 0)

/-- `Chunk::local_to_world_pos` (chunky.rs:171-177). -/
def Chunk.local_to_world_pos (c : Chunk) (x y z : Nat) : Vec3 :=
  ⟨c.chunk_pos.x * (CHUNK_SIZE : ℚ) + (x : ℚ),
   c.chunk_pos.y * (CHUNK_SIZE : ℚ) + (y : ℚ),
   c.chunk_pos.z * (CHUNK_SIZE : ℚ) + (z : ℚ)⟩

/-- Rust `Iterator::position(p)` (the scan at chunky.rs:91-93). -/
def listPosition {α : Type} (p : α → Bool) : List α → Option Nat
  | [] => none
  | a :: t => if p a then some 0 else (listPosition p t).map (· + 1)

/-- The free-slot scan of chunky.rs:71-87: index of the first `None` entry of
the palette, if any. -/
def firstNoneIdx : List (Option Str) → Option Nat
  | [] => none
  | none :: _ => some 0
  | some _ :: t => (firstNoneIdx t).map (· + 1)

/-- `Chunk::add_block` (chunky.rs:54-135), with the registry passed in
(`get_block` at line 99 reads the global registry).  Result `none` models a
Rust panic; `some (c', r)` is the updated chunk and the returned `bool`.
The two panic sites are `position(..).unwrap()` (line 93, unreachable) and
the unguarded palette write `self.ids[(curr_block_id + 1) as usize] = None`
(line 124).  `as u16` truncation and release-mode wrap of `+ 1` are kept as
`% 65536`. -/
def Chunk.add_block (reg : Str → Option Block) (c : Chunk) (x y z : Nat)
    (block : Option Block) : Option (Chunk × Bool) :=
  let pos := pos_as_index x y z
  if pos < c.blocks.len then
    match block with
    | some data =>
      let c1 : Chunk := { c with is_empty_field := false }
      let c2 : Chunk :=
        if c1.air_count > 0 then { c1 with air_count := c1.air_count - 1 } else c1
      let id_string := data.get_identifier.as_string
      let c3 : Chunk :=
        if c2.ids.contains (some id_string) then c2
        else
          match firstNoneIdx c2.ids with
          | some index => { c2 with ids := c2.ids.set index (some id_string) }
          | none => { c2 with ids := c2.ids ++ [some id_string] }
      match listPosition (fun o => o == some id_string) c3.ids with
      | none => none
      | some idx =>
        let block_id := (idx % 65536 + 1) % 65536
        let c4 : Chunk := { c3 with blocks := c3.blocks.set pos block_id }
        some ({ c4 with is_empty_field := c4.air_count == c4.blocks.len }, true)
    | none =>
      match c.get_block reg x y z with
      | some _ =>
        let c1 : Chunk := { c with air_count := c.air_count + 1 }
        let curr_block_id := c1.get_local_block_id x y z
        let c2 : Chunk := { c1 with blocks := c1.blocks.set pos 0 }
        if c2.blocks.containsVal curr_block_id then
          some ({ c2 with is_empty_field := c2.air_count == c2.blocks.len }, true)
        else
          let i := (curr_block_id + 1) % 65536
          if i < c2.ids.length then
            let c3 : Chunk := { c2 with ids := c2.ids.set i none }
            some ({ c3 with is_empty_field := c3.air_count == c3.blocks.len }, true)
          else
            none
      | none =>
        some ({ c with is_empty_field := c.air_count == c.blocks.len }, true)
  else
    some (c, false)

/-- `Chunk::remove_block` (chunky.rs:137-139). -/
def Chunk.remove_block (reg : Str → Option Block) (c : Chunk) (x y z : Nat) :
    Option (Chunk × Bool) :=
  c.add_block reg x y z none

/-! ## block.rs: face culling -/

/-- `VoxelCullCode::U as u8` (block.rs:213). -/
def cullU : Nat := 1

/-- `VoxelCullCode::D as u8` (block.rs:214). -/
def cullD : Nat := 2

/-- `VoxelCullCode::R as u8` (block.rs:215). -/
def cullR : Nat := 4

/-- `VoxelCullCode::L as u8` (block.rs:216). -/
def cullL : Nat := 8

/-- `VoxelCullCode::B as u8` (block.rs:229). -/
def cullB : Nat := 16

/-- `VoxelCullCode::F as u8` (block.rs:246). -/
def cullF : Nat := 32

/-- `cull_neighbors` (block.rs:281-324): sequential bit-ORs, one per
direction, in the source's order R, F, L, B, U, D. -/
def cull_neighbors (chunk : Chunk) (x y z : Nat) : Nat :=
  let code := 0
  let code :=
    if x > 0 then
      if chunk.has_block_at (x - 1) y z then code else code ||| cullR
    else code ||| cullR
  let code :=
    if z > 0 then
      if chunk.has_block_at x y (z - 1) then code else code ||| cullF
    else code ||| cullF
  let code :=
    if x < CHUNK_SIZE - 1 then
      if chunk.has_block_at (x + 1) y z then code else code ||| cullL
    else code ||| cullL
  let code :=
    if z < CHUNK_SIZE - 1 then
      if chunk.has_block_at x y (z + 1) then code else code ||| cullB
    else code ||| cullB
  let code :=
    if y < CHUNK_SIZE - 1 then
      if chunk.has_block_at x (y + 1) z then code else code ||| cullU
    else code ||| cullU
  let code :=
    if y > 0 then
      if chunk.has_block_at x (y - 1) z then code else code ||| cullD
    else code ||| cullD
  code

/-! ## chunky.rs: mesh assembly -/

/-- The four parallel buffers accumulated by `build_chunk_mesh`
(chunky.rs:194-197).  Index values are kept as `Nat`: the source's
`positions.len() as u32` cast is exact because one chunk emits at most
6·16³ faces, hence fewer than 2³² vertices. -/
structure MeshData where
  positions : List Vec3
  normals : List Vec3
  uvs : List (ℚ × ℚ)
  indices : List Nat
deriving DecidableEq

/-- The empty accumulator state of `build_chunk_mesh`. -/
def MeshData.empty : MeshData := ⟨[], [], [], []⟩

/-- `build_face` (chunky.rs:309-347): pushes 4 positions (offset pattern +
voxel world position), 4 "normals" (the source adds the voxel world position
to the stored normal as well), appends the 4 UVs, and pushes the 6 indices
`0,1,2,2,3,0` offset by the running vertex count. -/
def build_face (acc : MeshData) (block_face : List (Vec3 × Vec3))
    (block_uvs : List (ℚ × ℚ)) (block_pos : Vec3) : MeshData :=
  let index := acc.positions.length
  { positions := acc.positions ++ block_face.map (fun pn =>
      ⟨block_pos.x + pn.1.x, block_pos.y + pn.1.y, block_pos.z + pn.1.z⟩)
    normals := acc.normals ++ block_face.map (fun pn =>
      ⟨block_pos.x + pn.2.x, block_pos.y + pn.2.y, block_pos.z + pn.2.z⟩)
    uvs := acc.uvs ++ block_uvs
    indices := acc.indices ++ [0, 1, 2, 2, 3, 0].map (· + index) }

/-- The block-resolution chain of `build_chunk_mesh` (chunky.rs:216-217):
palette lookup, `Identifier::from(..).unwrap()`, registry lookup.
`none` models a panic (palette index out of bounds, or `unwrap` on a
malformed palette string); `some none` is the silent skip (palette slot
`None`, or registry miss); `some (some b)` resolves to a block. -/
def resolveLocalId (reg : Str → Option Block) (ids : List (Option Str))
    (v : Nat) : Option (Option Block) :=
  match ids.get? (v - 1) with
  | none => none
  | some none => some none
  | some (some s) =>
    match Identifier.from_str s with
    | .error _ => none
    | .ok i => some (reg i.as_string)

/-- The loop body of `build_chunk_mesh` for one voxel (chunky.rs:202-291).
`none` models a panic.  Faces are emitted in the source's order
U, D, R, L, F, B, each guarded by its bit of the cull code. -/
def processVoxel (reg : Str → Option Block) (chunk : Chunk) (x y z : Nat)
    (acc : MeshData) : Option MeshData :=
  let index := pos_as_index x y z
  if index > chunk.blocks.len then some acc
  else
    match chunk.blocks.get? index with
    | none => none
    | some v =>
      if v > 0 then
        match resolveLocalId reg chunk.ids v with
        | none => none
        | some none => some acc
        | some (some block) =>
          let cull_code := cull_neighbors chunk x y z
          let block_pos := chunk.local_to_world_pos x y z
          let acc :=
            if cull_code &&& cullU = cullU then
              build_face acc VERTICES_TOP block.get_uvs_top block_pos
            else acc
          let acc :=
            if cull_code &&& cullD = cullD then
              build_face acc VERTICES_BOTTOM block.get_uvs_bottom block_pos
            else acc
          let acc :=
            if cull_code &&& cullR = cullR then
              build_face acc VERTICES_RIGHT block.get_uvs_right block_pos
            else acc
          let acc :=
            if cull_code &&& cullL = cullL then
              build_face acc VERTICES_LEFT block.get_uvs_left block_pos
            else acc
          let acc :=
            if cull_code &&& cullF = cullF then
              build_face acc VERTICES_FRONT block.get_uvs_front block_pos
            else acc
          let acc :=
            if cull_code &&& cullB = cullB then
              build_face acc VERTICES_BACK block.get_uvs_back block_pos
            else acc
          some acc
      else
        some acc

/-- The iteration order of `build_chunk_mesh` (chunky.rs:199-201): `z` outer,
then `x`, then `y`, each over `0..CHUNK_SIZE`.  Triples are `(z, x, y)`. -/
def chunkCoords : List (Nat × Nat × Nat) :=
  (List.range CHUNK_SIZE).flatMap (fun z =>
    (List.range CHUNK_SIZE).flatMap (fun x =>
      (List.range CHUNK_SIZE).map (fun y => (z, x, y))))

/-- `build_chunk_mesh` (chunky.rs:193-307), as the fold of `processVoxel`
over the voxel iteration order.  `none` models a panic. -/
def build_chunk_mesh (reg : Str → Option Block) (chunk : Chunk) :
    Option MeshData :=
  chunkCoords.foldlM (fun acc t => processVoxel reg chunk t.2.1 t.2.2 t.1 acc)
    MeshData.empty

/-! ## Specification-side predicates -/

/-- Number of set bits among the six direction bits of a cull code, written
with the same bit tests `build_chunk_mesh` performs. -/
def bitsOn (c : Nat) : Nat :=
  (if c &&& cullU = cullU then 1 else 0) +
  (if c &&& cullD = cullD then 1 else 0) +
  (if c &&& cullR = cullR then 1 else 0) +
  (if c &&& cullL = cullL then 1 else 0) +
  (if c &&& cullF = cullF then 1 else 0) +
  (if c &&& cullB = cullB then 1 else 0)

/-- `true` exactly when the resolution chain reaches a registry block. -/
def resolvesToBlock : Option (Option Block) → Bool
  | some (some _) => true
  | _ => false

/-- Faces `build_chunk_mesh` emits for one voxel: the set bits of its cull
code if the voxel is solid and its palette entry resolves, zero otherwise. -/
def voxelFaces (reg : Str → Option Block) (c : Chunk) (x y z : Nat) : Nat :=
  let v := c.blocks.get (pos_as_index x y z)
  if 0 < v then
    if resolvesToBlock (resolveLocalId reg c.ids v) then
      bitsOn (cull_neighbors c x y z)
    else 0
  else 0

/-- Exposed faces of one voxel in the sense of claim C6: the set bits of the
cull code of every solid voxel. -/
def exposedFaces (c : Chunk) (x y z : Nat) : Nat :=
  if 0 < c.blocks.get (pos_as_index x y z) then bitsOn (cull_neighbors c x y z)
  else 0

/-- Total number of exposed faces of a chunk (sum over all voxel positions). -/
def exposedFaceCount (c : Chunk) : Nat :=
  (chunkCoords.map (fun t => exposedFaces c t.2.1 t.2.2 t.1)).sum

/-- Total number of faces `build_chunk_mesh` emits. -/
def emittedFaceCount (reg : Str → Option Block) (c : Chunk) : Nat :=
  (chunkCoords.map (fun t => voxelFaces reg c t.2.1 t.2.2 t.1)).sum

/-- The index buffer of a mesh of `k` faces: per face `i`, the pattern
`0,1,2,2,3,0` offset by the face's base vertex `4*i`. -/
def facePattern (k : Nat) : List Nat :=
  (List.range k).flatMap (fun i => [0, 1, 2, 2, 3, 0].map (· + 4 * i))

/-- Well-formedness of an accumulated mesh holding `k` faces: `4k` positions,
normals and UVs, and the `6k` indices follow the face pattern. -/
def MeshWF (m : MeshData) (k : Nat) : Prop :=
  m.positions.length = 4 * k ∧ m.normals.length = 4 * k ∧
  m.uvs.length = 4 * k ∧ m.indices.length = 6 * k ∧ m.indices = facePattern k

/-- The `Some` entries of the palette are pairwise distinct. -/
def PaletteDistinct (ids : List (Option Str)) : Prop :=
  ∀ i j s, i < j → ids.get? i = some (some s) → ids.get? j = some (some s) →
    False

/-- Chunk states reachable from `Chunk::new` by sequences of non-panicking
`add_block` / `remove_block` calls against a fixed registry. -/
inductive Reachable (reg : Str → Option Block) : Chunk → Prop where
  | new (pos : Vec3) : Reachable reg (Chunk.new pos)
  | step (c c' : Chunk) (x y z : Nat) (b : Option Block) (r : Bool) :
      Reachable reg c → c.add_block reg x y z b = some (c', r) →
      Reachable reg c'

/-! ## Concrete fixtures used by counterexamples and witnesses -/

/-- The origin vector. -/
def v0 : Vec3 := ⟨0, 0, 0⟩

/-- A texture rectangle. -/
def rect0 : Rect := ⟨0, 0, 1, 1⟩

/-- A well-formed identifier, `blocky:stone`. -/
def idA : Identifier := ⟨"blocky".toList, "stone".toList⟩

/-- A block carrying `idA`. -/
def blockA : Block := ⟨idA, rect0, rect0, rect0, rect0, rect0, rect0⟩

/-- A registry resolving exactly `blocky:stone`, to `blockA`. -/
def regA : Str → Option Block :=
  fun s => if s = idA.as_string then some blockA else none

/-- The test string `"a:b"` as a character list. -/
def strAB : Str := ['a', ':', 'b']

/-- A block whose identifier `x:y` is well-formed but absent from `regA`. -/
def badBlock : Block :=
  ⟨⟨"x".toList, "y".toList⟩, rect0, rect0, rect0, rect0, rect0, rect0⟩

/-- A chunk at the origin whose only solid voxel sits at `(1,0,0)` with local
id 1 resolving to `blockA`. -/
def cOne : Chunk :=
  { is_empty_field := false
    air_count := 4095
    chunk_pos := v0
    ids := [some idA.as_string]
    blocks := (VecU16.replicate 4096 0).set (pos_as_index 1 0 0) 1 }

/-- A chunk whose only solid voxel at `(1,0,0)` has local id 1 but a freed
(`None`) palette slot: a palette/registry desync. -/
def cDesync : Chunk :=
  { is_empty_field := false
    air_count := 4095
    chunk_pos := v0
    ids := [none]
    blocks := (VecU16.replicate 4096 0).set (pos_as_index 1 0 0) 1 }

/-- The state after `Chunk::new(origin)` followed by
`add_block(0,0,0, blocky:stone)`. -/
def cStone : Chunk :=
  { is_empty_field := false
    air_count := 4095
    chunk_pos := v0
    ids := [some idA.as_string]
    blocks := (VecU16.replicate 4096 0).set (pos_as_index 0 0 0) 1 }

/-- The state after writing `blocky:stone` at `(0,0,0)` twice in a row. -/
def cStone2 : Chunk :=
  { is_empty_field := false
    air_count := 4094
    chunk_pos := v0
    ids := [some idA.as_string]
    blocks := ((VecU16.replicate 4096 0).set (pos_as_index 0 0 0) 1).set
      (pos_as_index 0 0 0) 1 }

/-! ## Helper lemmas -/

theorem pos_as_index_eq_aux :
    ∀ x < 16, ∀ y < 16, ∀ z < 16, pos_as_index x y z = x + 16 * y + 256 * z := by
  decide

theorem pos_as_index_eq {x y z : Nat} (hx : x < 16) (hy : y < 16)
    (hz : z < 16) : pos_as_index x y z = x + 16 * y + 256 * z :=
  pos_as_index_eq_aux x hx y hy z hz

theorem pos_as_index_lt {x y z : Nat} (hx : x < 16) (hy : y < 16)
    (hz : z < 16) : pos_as_index x y z < 4096 := by
  rw [pos_as_index_eq hx hy hz]; omega

theorem VecU16.len_set (a : VecU16) (i v : Nat) : (a.set i v).len = a.len :=
  rfl

theorem VecU16.get_set_self (a : VecU16) (i v : Nat) :
    (a.set i v).get i = v := by
  simp [VecU16.set]

theorem VecU16.get_set_ne (a : VecU16) {i j : Nat} (v : Nat) (h : j ≠ i) :
    (a.set i v).get j = a.get j := by
  simp [VecU16.set, h]

theorem VecU16.containsVal_iff (a : VecU16) (v : Nat) :
    a.containsVal v = true ↔ ∃ i, i < a.len ∧ a.get i = v := by
  simp [VecU16.containsVal, List.any_eq_true, List.mem_range]

theorem VecU16.containsVal_eq_false (a : VecU16) (v : Nat)
    (h : ∀ i, i < a.len → a.get i ≠ v) : a.containsVal v = false := by
  rw [← Bool.not_eq_true, VecU16.containsVal_iff]
  rintro ⟨i, hi, hv⟩
  exact h i hi hv

theorem countP_range_ite (p : Nat → Bool) :
    ∀ n i, i < n → (∀ j, j < n → p j = (j != i)) →
      (List.range n).countP p = n - 1 := by
  intro n
  induction n with
  | zero => intro i hi; omega
  | succ k ih =>
    intro i hi hp
    rw [List.range_succ, List.countP_append]
    by_cases hik : i = k
    · have hall : ∀ j ∈ List.range k, p j = true := by
        intro j hj
        rw [List.mem_range] at hj
        rw [hp j (by omega)]
        simp
        omega
      have hk : p k = false := by
        rw [hp k (by omega)]
        simp
        omega
      rw [List.countP_eq_length.mpr hall]
      simp [List.countP_cons, hk]
    · have hk : p k = true := by
        rw [hp k (by omega)]
        simp
        omega
      rw [ih i (by omega) (fun j hj => hp j (by omega))]
      simp [List.countP_cons, hk]
      omega

theorem add_stone :
    (Chunk.new v0).add_block regA 0 0 0 (some blockA) = some (cStone, true) := by
  rfl

theorem add_stone2 :
    cStone.add_block regA 0 0 0 (some blockA) = some (cStone2, true) := by
  rfl

theorem cStone_get_block : cStone.get_block regA 0 0 0 = some blockA := by
  rfl

/-- The `None` (removal) branch of `add_block` over a previously occupied,
registry-resolvable voxel, written out as one expression. -/
theorem add_block_none_eq (reg : Str → Option Block) (c : Chunk) (x y z : Nat)
    (b : Block) (hpos : pos_as_index x y z < c.blocks.len)
    (hsolid : c.get_block reg x y z = some b) :
    c.add_block reg x y z none =
      (if (c.blocks.set (pos_as_index x y z) 0).containsVal
            (c.get_local_block_id x y z) then
         some ({ c with air_count := c.air_count + 1,
                        blocks := c.blocks.set (pos_as_index x y z) 0,
                        is_empty_field := (c.air_count + 1) == c.blocks.len },
               true)
       else if (c.get_local_block_id x y z + 1) % 65536 < c.ids.length then
         some ({ c with air_count := c.air_count + 1,
                        blocks := c.blocks.set (pos_as_index x y z) 0,
                        ids := c.ids.set
                          ((c.get_local_block_id x y z + 1) % 65536) none,
                        is_empty_field := (c.air_count + 1) == c.blocks.len },
               true)
       else none) := by
  unfold Chunk.add_block
  rw [if_pos hpos, hsolid]
  rfl

/-- C1, counterexample.  The coordinate `(16,0,0)` has a component outside
`[0,16)`, yet `add_block` returns `true` (the claim demands `false`): the
packed index `16` aliases the in-bounds voxel `(0,1,0)`, which becomes
solid, and reads at `(16,0,0)` see local id 1 (the claim demands
`None`/`false`). -/
theorem C1_counterexample :
    ((Chunk.new v0).add_block regA 16 0 0 (some blockA)).map
      (fun p => (p.2, p.1.has_block_at 0 1 0, p.1.has_block_at 16 0 0,
                 p.1.get_local_block_id 16 0 0)) =
      some (true, true, true, 1) := by
  rfl

/-- C1, amended.  `add_block` rejects a write (returning `false` and leaving
the chunk unchanged) exactly when the bit-packed index `x|y<<4|z<<8` falls
outside the voxel array; for such coordinates `get_block`, `has_block_at`
and `get_local_block_id` also return `none`/`false`/`0`, and no call
panics.  Coordinates with a component outside `[0,16)` whose packed index
is still in range are instead silently redirected to the aliased in-bounds
voxel (see the counterexample). -/
theorem C1_theorem (reg : Str → Option Block) (c : Chunk) (x y z : Nat)
    (b : Option Block) (hlen : c.blocks.len = 4096)
    (hpos : 4096 ≤ pos_as_index x y z) :
    c.add_block reg x y z b = some (c, false) ∧
    c.get_block reg x y z = none ∧
    c.has_block_at x y z = false ∧
    c.get_local_block_id x y z = 0 := by
  have h : ¬ pos_as_index x y z < c.blocks.len := by omega
  refine ⟨?_, ?_, ?_, ?_⟩ <;>
    simp [Chunk.add_block, Chunk.get_block, Chunk.has_block_at,
      Chunk.get_local_block_id, h]

/-- C1, witness: the amended theorem applied at `(0,0,16)` on a fresh chunk. -/
theorem C1_witness :
    (Chunk.new v0).blocks.len = 4096 ∧ 4096 ≤ pos_as_index 0 0 16 ∧
    ((Chunk.new v0).add_block regA 0 0 16 (some blockA) =
        some (Chunk.new v0, false) ∧
     (Chunk.new v0).get_block regA 0 0 16 = none ∧
     (Chunk.new v0).has_block_at 0 0 16 = false ∧
     (Chunk.new v0).get_local_block_id 0 0 16 = 0) :=
  ⟨rfl, by decide,
   C1_theorem regA (Chunk.new v0) 0 0 16 (some blockA) rfl (by decide)⟩

/-- C2: code bug.  In the chunk obtained by placing `blocky:stone` at
`(0,0,0)` (its voxel holds local id 1, uniquely), removing it must free
palette slot `ids[0]`; instead the source indexes
`ids[(curr_block_id + 1)] = ids[2]` on a one-entry palette, an
out-of-bounds write, i.e. a panic (`none` in this model). -/
theorem C2_theorem :
    ((Chunk.new v0).add_block regA 0 0 0 (some blockA)).bind
      (fun p => p.1.add_block regA 0 0 0 none) = none := by
  rw [add_stone, Option.some_bind]
  rw [add_block_none_eq regA cStone 0 0 0 blockA (by decide) cStone_get_block]
  have hcontains : ((cStone.blocks.set (pos_as_index 0 0 0) 0).containsVal
      (cStone.get_local_block_id 0 0 0)) = false := by
    apply VecU16.containsVal_eq_false
    intro i hi
    have hv : cStone.get_local_block_id 0 0 0 = 1 := rfl
    rw [hv]
    by_cases h : i = pos_as_index 0 0 0
    · rw [h, VecU16.get_set_self]
      decide
    · rw [VecU16.get_set_ne _ _ h,
        show cStone.blocks = (VecU16.replicate 4096 0).set (pos_as_index 0 0 0) 1
          from rfl,
        VecU16.get_set_ne _ _ h]
      simp [VecU16.replicate]
  rw [hcontains]
  rfl

/-- C3: code bug.  Writing `blocky:stone` at `(0,0,0)` twice decrements
`air_count` both times (the second write overwrites an occupied voxel but
still consumes an "air" unit), so `air_count = 4094` while the voxel array
holds 4095 zero entries — the invariant claimed by the spec (and by the
field's own doc comment) is broken. -/
theorem C3_theorem :
    (((Chunk.new v0).add_block regA 0 0 0 (some blockA)).bind
      (fun p => p.1.add_block regA 0 0 0 (some blockA))).map
      (fun p => (p.1.air_count, p.1.blocks.countZeros)) =
      some (4094, 4095) := by
  rw [add_stone, Option.some_bind]
  rw [add_stone2]
  have hz : cStone2.blocks.countZeros = 4095 := by
    show (List.range 4096).countP (fun i => cStone2.blocks.get i == 0) = 4095
    have := countP_range_ite (fun i => cStone2.blocks.get i == 0) 4096 0
      (by omega) ?_
    · exact this
    · intro j hj
      by_cases h : j = 0
      · subst h; rfl
      · have hp0 : pos_as_index 0 0 0 = 0 := rfl
        have : cStone2.blocks.get j = 0 := by
          simp [cStone2, VecU16.set, VecU16.replicate, hp0, h]
        simp [this, h]
  simp [hz]
  rfl

/-- C4, counterexample.  Place a block whose identifier is absent from the
registry at `(0,0,0)`, then call `add_block(0,0,0,None)`: the call returns
`true` but the voxel is *not* cleared (the removal branch is only taken when
`get_block` resolves), so `has_block_at` stays `true`, contradicting the
claim's "regardless of the prior contents of p". -/
theorem C4_counterexample :
    (((Chunk.new v0).add_block regA 0 0 0 (some badBlock)).bind
      (fun p => p.1.add_block regA 0 0 0 none)).map
      (fun p => (p.2, p.1.has_block_at 0 0 0)) = some (true, true) := by
  rfl

/-- C7: code bug.  For the lone voxel at `(1,0,0)` (world position
`(1,0,0)`), the four stored normals of its top face are `(1,1,0)` — the
voxel's world position plus the unit normal — not the direction's unit
normal `(0,1,0)` required by the claim; the stored normal depends on the
voxel's world position. -/
theorem C7_theorem :
    (processVoxel regA cOne 1 0 0 MeshData.empty).map
      (fun m => m.normals.take 4) =
      some [⟨1, 1, 0⟩, ⟨1, 1, 0⟩, ⟨1, 1, 0⟩, ⟨1, 1, 0⟩] ∧
    (⟨1, 1, 0⟩ : Vec3) ≠ ⟨0, 1, 0⟩ := by
  constructor
  · have h1 : (processVoxel regA cOne 1 0 0 MeshData.empty).map
        (fun m => m.normals.take 4) =
        some (VERTICES_TOP.map (fun pn =>
          ⟨(cOne.local_to_world_pos 1 0 0).x + pn.2.x,
           (cOne.local_to_world_pos 1 0 0).y + pn.2.y,
           (cOne.local_to_world_pos 1 0 0).z + pn.2.z⟩)) := rfl
    rw [h1]
    have hwp : cOne.local_to_world_pos 1 0 0 = ⟨1, 0, 0⟩ := by
      simp [Chunk.local_to_world_pos, cOne, v0, CHUNK_SIZE]
    rw [hwp]
    norm_num [VERTICES_TOP]
  · decide

/-- C8, counterexample.  `from_str` accepts `":"` and `"a:"`, producing
identifiers with an empty namespace and/or an empty name, although the claim
requires both parts to be non-empty for success. -/
theorem C8_counterexample :
    Identifier.from_str (':' :: []) = Except.ok ⟨[], []⟩ ∧
    Identifier.from_str "a:".toList = Except.ok ⟨['a'], []⟩ := by
  constructor <;> rfl

theorem and_pow_eq (n i : Nat) : (n &&& 2 ^ i = 2 ^ i) ↔ n.testBit i = true := by
  rw [Nat.and_two_pow]
  have hp := Nat.two_pow_pos i
  rcases Bool.eq_false_or_eq_true (n.testBit i) with h | h <;> simp [h] <;> omega

theorem and_bit_eq (n m j : Nat) (hm : m = 2 ^ j) :
    (n &&& m = m) ↔ n.testBit j = true := by
  rw [hm, and_pow_eq]

theorem step_eq (outer : Prop) [Decidable outer] (has : Bool)
    (code bit : Nat) :
    (if outer then (if has = true then code else code ||| bit)
     else code ||| bit) =
      code ||| (if outer then (if has = true then 0 else bit) else bit) := by
  split_ifs <;> simp

theorem e_testBit_self (outer : Prop) [Decidable outer] (has : Bool)
    (bit j : Nat) (hbit : bit.testBit j = true) :
    ((if outer then (if has = true then 0 else bit) else bit).testBit j) =
      (decide ¬outer || !has) := by
  split_ifs <;> simp_all

theorem e_testBit_other (outer : Prop) [Decidable outer] (has : Bool)
    (bit j : Nat) (hbit : bit.testBit j = false) :
    ((if outer then (if has = true then 0 else bit) else bit).testBit j) =
      false := by
  split_ifs <;> simp_all

theorem cull_neighbors_eq (c : Chunk) (x y z : Nat) :
    cull_neighbors c x y z =
      0 |||
        (if x > 0 then (if c.has_block_at (x - 1) y z = true then 0 else cullR)
         else cullR) |||
        (if z > 0 then (if c.has_block_at x y (z - 1) = true then 0 else cullF)
         else cullF) |||
        (if x < CHUNK_SIZE - 1 then
          (if c.has_block_at (x + 1) y z = true then 0 else cullL) else cullL) |||
        (if z < CHUNK_SIZE - 1 then
          (if c.has_block_at x y (z + 1) = true then 0 else cullB) else cullB) |||
        (if y < CHUNK_SIZE - 1 then
          (if c.has_block_at x (y + 1) z = true then 0 else cullU) else cullU) |||
        (if y > 0 then (if c.has_block_at x (y - 1) z = true then 0 else cullD)
         else cullD) := by
  unfold cull_neighbors
  simp only [step_eq]

/-- C5: for every in-bounds solid voxel and each of the six directions, the
direction's bit of `cull_neighbors` is set iff the neighbour one step that
way is outside `[0,16)³` (for the decremented axes: the coordinate is 0; for
the incremented axes: the successor reaches 16) or is not solid; each bit
depends only on its own direction's check. -/
theorem C5_theorem (c : Chunk) (x y z : Nat) (hx : x < 16) (hy : y < 16)
    (hz : z < 16) (hsolid : c.has_block_at x y z = true) :
    (cull_neighbors c x y z &&& cullU = cullU ↔
      (16 ≤ y + 1 ∨ c.has_block_at x (y + 1) z = false)) ∧
    (cull_neighbors c x y z &&& cullD = cullD ↔
      (y = 0 ∨ c.has_block_at x (y - 1) z = false)) ∧
    (cull_neighbors c x y z &&& cullR = cullR ↔
      (x = 0 ∨ c.has_block_at (x - 1) y z = false)) ∧
    (cull_neighbors c x y z &&& cullL = cullL ↔
      (16 ≤ x + 1 ∨ c.has_block_at (x + 1) y z = false)) ∧
    (cull_neighbors c x y z &&& cullF = cullF ↔
      (z = 0 ∨ c.has_block_at x y (z - 1) = false)) ∧
    (cull_neighbors c x y z &&& cullB = cullB ↔
      (16 ≤ z + 1 ∨ c.has_block_at x y (z + 1) = false)) := by
  rw [cull_neighbors_eq]
  refine ⟨?_, ?_, ?_, ?_, ?_, ?_⟩
  · rw [and_bit_eq _ cullU 0 (by decide)]
    simp only [Nat.testBit_or, Nat.zero_testBit,
      e_testBit_self _ _ cullU 0 (by decide),
      e_testBit_other _ _ cullR 0 (by decide),
      e_testBit_other _ _ cullF 0 (by decide),
      e_testBit_other _ _ cullL 0 (by decide),
      e_testBit_other _ _ cullB 0 (by decide),
      e_testBit_other _ _ cullD 0 (by decide)]
    by_cases hb : c.has_block_at x (y + 1) z <;> simp [hb, CHUNK_SIZE] <;> omega
  · rw [and_bit_eq _ cullD 1 (by decide)]
    simp only [Nat.testBit_or, Nat.zero_testBit,
      e_testBit_self _ _ cullD 1 (by decide),
      e_testBit_other _ _ cullR 1 (by decide),
      e_testBit_other _ _ cullF 1 (by decide),
      e_testBit_other _ _ cullL 1 (by decide),
      e_testBit_other _ _ cullB 1 (by decide),
      e_testBit_other _ _ cullU 1 (by decide)]
    by_cases hb : c.has_block_at x (y - 1) z <;> simp [hb, CHUNK_SIZE] <;> omega
  · rw [and_bit_eq _ cullR 2 (by decide)]
    simp only [Nat.testBit_or, Nat.zero_testBit,
      e_testBit_self _ _ cullR 2 (by decide),
      e_testBit_other _ _ cullF 2 (by decide),
      e_testBit_other _ _ cullL 2 (by decide),
      e_testBit_other _ _ cullB 2 (by decide),
      e_testBit_other _ _ cullU 2 (by decide),
      e_testBit_other _ _ cullD 2 (by decide)]
    by_cases hb : c.has_block_at (x - 1) y z <;> simp [hb, CHUNK_SIZE] <;> omega
  · rw [and_bit_eq _ cullL 3 (by decide)]
    simp only [Nat.testBit_or, Nat.zero_testBit,
      e_testBit_self _ _ cullL 3 (by decide),
      e_testBit_other _ _ cullR 3 (by decide),
      e_testBit_other _ _ cullF 3 (by decide),
      e_testBit_other _ _ cullB 3 (by decide),
      e_testBit_other _ _ cullU 3 (by decide),
      e_testBit_other _ _ cullD 3 (by decide)]
    by_cases hb : c.has_block_at (x + 1) y z <;> simp [hb, CHUNK_SIZE] <;> omega
  · rw [and_bit_eq _ cullF 5 (by decide)]
    simp only [Nat.testBit_or, Nat.zero_testBit,
      e_testBit_self _ _ cullF 5 (by decide),
      e_testBit_other _ _ cullR 5 (by decide),
      e_testBit_other _ _ cullL 5 (by decide),
      e_testBit_other _ _ cullB 5 (by decide),
      e_testBit_other _ _ cullU 5 (by decide),
      e_testBit_other _ _ cullD 5 (by decide)]
    by_cases hb : c.has_block_at x y (z - 1) <;> simp [hb, CHUNK_SIZE] <;> omega
  · rw [and_bit_eq _ cullB 4 (by decide)]
    simp only [Nat.testBit_or, Nat.zero_testBit,
      e_testBit_self _ _ cullB 4 (by decide),
      e_testBit_other _ _ cullR 4 (by decide),
      e_testBit_other _ _ cullF 4 (by decide),
      e_testBit_other _ _ cullL 4 (by decide),
      e_testBit_other _ _ cullU 4 (by decide),
      e_testBit_other _ _ cullD 4 (by decide)]
    by_cases hb : c.has_block_at x y (z + 1) <;> simp [hb, CHUNK_SIZE] <;> omega


/-- C5, witness: the theorem applied to the lone solid voxel `(1,0,0)` of
`cOne`. -/
theorem C5_witness :
    (cull_neighbors cOne 1 0 0 &&& cullU = cullU ↔
      (16 ≤ 0 + 1 ∨ cOne.has_block_at 1 (0 + 1) 0 = false)) ∧
    (cull_neighbors cOne 1 0 0 &&& cullD = cullD ↔
      (0 = 0 ∨ cOne.has_block_at 1 (0 - 1) 0 = false)) ∧
    (cull_neighbors cOne 1 0 0 &&& cullR = cullR ↔
      (1 = 0 ∨ cOne.has_block_at (1 - 1) 0 0 = false)) ∧
    (cull_neighbors cOne 1 0 0 &&& cullL = cullL ↔
      (16 ≤ 1 + 1 ∨ cOne.has_block_at (1 + 1) 0 0 = false)) ∧
    (cull_neighbors cOne 1 0 0 &&& cullF = cullF ↔
      (0 = 0 ∨ cOne.has_block_at 1 0 (0 - 1) = false)) ∧
    (cull_neighbors cOne 1 0 0 &&& cullB = cullB ↔
      (16 ≤ 0 + 1 ∨ cOne.has_block_at 1 0 (0 + 1) = false)) :=
  C5_theorem cOne 1 0 0 (by decide) (by decide) (by decide) (by rfl)

theorem splitOnColon_ne_nil : ∀ l : Str, splitOnColon l ≠ [] := by
  intro l
  induction l with
  | nil => simp [splitOnColon]
  | cons c rest ih =>
    by_cases hc : c = ':'
    · simp [splitOnColon, hc]
    · simp only [splitOnColon, if_neg hc]
      cases h : splitOnColon rest with
      | nil => simp
      | cons hd tl => simp

theorem splitOnColon_length :
    ∀ l : Str, (splitOnColon l).length = l.count ':' + 1 := by
  intro l
  induction l with
  | nil => simp [splitOnColon]
  | cons c rest ih =>
    by_cases hc : c = ':'
    · simp [splitOnColon, hc, List.count_cons, ih]
    · simp only [splitOnColon, if_neg hc]
      cases h : splitOnColon rest with
      | nil => exact absurd h (splitOnColon_ne_nil rest)
      | cons hd tl =>
        rw [h] at ih
        simp only [List.count_cons, List.length_cons] at ih ⊢
        simp [hc, ih]

theorem splitOnColon_single :
    ∀ l x, splitOnColon l = [x] → l = x ∧ ':' ∉ x := by
  intro l
  induction l with
  | nil =>
    intro x h
    simp [splitOnColon] at h
    subst h
    simp
  | cons c rest ih =>
    intro x h
    by_cases hc : c = ':'
    · simp [splitOnColon, hc] at h
      exact absurd h.2 (splitOnColon_ne_nil rest)
    · simp only [splitOnColon, if_neg hc] at h
      cases hr : splitOnColon rest with
      | nil => exact absurd hr (splitOnColon_ne_nil rest)
      | cons hd tl =>
        rw [hr] at h
        simp at h
        obtain ⟨hx, htl⟩ := h
        obtain ⟨hrest, hmem⟩ := ih hd (by rw [hr, htl])
        subst hrest
        subst hx
        simp [hmem, Ne.symm hc]

theorem splitOnColon_pair :
    ∀ l a b, splitOnColon l = [a, b] →
      l = a ++ ':' :: b ∧ ':' ∉ a ∧ ':' ∉ b := by
  intro l
  induction l with
  | nil => intro a b h; simp [splitOnColon] at h
  | cons c rest ih =>
    intro a b h
    by_cases hc : c = ':'
    · subst hc
      simp [splitOnColon] at h
      obtain ⟨ha, hb⟩ := h
      obtain ⟨hrest, hmem⟩ := splitOnColon_single rest b hb
      subst hrest
      subst ha
      simp [hmem]
    · simp only [splitOnColon, if_neg hc] at h
      cases hr : splitOnColon rest with
      | nil => exact absurd hr (splitOnColon_ne_nil rest)
      | cons hd tl =>
        rw [hr] at h
        simp at h
        obtain ⟨ha, htl⟩ := h
        obtain ⟨hrest, hha, hhb⟩ := ih hd b (by rw [hr, htl])
        subst hrest
        subst ha
        simp [hha, hhb, Ne.symm hc]

theorem filter_invalid_nil (l : Str) :
    (l.filter (fun c => !(validChars.contains c))) = [] ↔
      ∀ ch ∈ l, ch ∈ validChars := by
  rw [List.filter_eq_nil_iff]
  simp [List.contains]

theorem validate_ok_iff (i : Identifier) :
    i.validate = Except.ok () ↔
      ((∀ ch ∈ i.ns, ch ∈ validChars) ∧ (∀ ch ∈ i.name, ch ∈ validChars)) := by
  unfold Identifier.validate
  dsimp only
  split_ifs with h
  · simp only [Bool.or_eq_true, decide_eq_true_eq] at h
    constructor
    · intro hE; exact absurd hE (by simp)
    · rintro ⟨h1, h2⟩
      rw [← filter_invalid_nil] at h1 h2
      rcases h with h | h
      · rw [h1] at h; simp at h
      · rw [h2] at h; simp at h
  · simp only [Bool.or_eq_true, decide_eq_true_eq, not_or] at h
    obtain ⟨h1, h2⟩ := h
    have g1 : i.ns.filter (fun c => !(validChars.contains c)) = [] := by
      rw [← List.length_eq_zero]; omega
    have g2 : i.name.filter (fun c => !(validChars.contains c)) = [] := by
      rw [← List.length_eq_zero]; omega
    rw [filter_invalid_nil] at g1 g2
    simp [g1, g2]
    exact ⟨g1, g2⟩

/-- C8, amended: `from_str(s)` succeeds iff `s` contains exactly one colon
and every character is the colon or lies in `[a-z0-9_.-]` (the two parts may
be empty); every identifier produced has both parts inside the character
set, and its canonical string form is `s` itself. -/
theorem C8_theorem (s : Str) :
    ((Identifier.from_str s).isOk = true ↔
      (s.count ':' = 1 ∧ ∀ ch ∈ s, ch = ':' ∨ ch ∈ validChars)) ∧
    ∀ i, Identifier.from_str s = .ok i →
      ((∀ ch ∈ i.ns, ch ∈ validChars) ∧ (∀ ch ∈ i.name, ch ∈ validChars) ∧
       i.as_string = s) := by
  have hlen := splitOnColon_length s
  cases hs : splitOnColon s with
  | nil => exact absurd hs (splitOnColon_ne_nil s)
  | cons a tl =>
    cases tl with
    | nil =>
      have hcount : s.count ':' = 0 := by
        rw [hs] at hlen; simp at hlen; omega
      have hfs : Identifier.from_str s = .error (.MissingColon s) := by
        unfold Identifier.from_str
        rw [hs]
        rfl
      rw [hfs]
      constructor
      · constructor
        · intro h; simp [Except.isOk, Except.toBool] at h
        · rintro ⟨h1, _⟩; omega
      · intro i hi; exact absurd hi (by simp)
    | cons b tl2 =>
      cases tl2 with
      | nil =>
        obtain ⟨hdec, hna, hnb⟩ := splitOnColon_pair s a b hs
        have hfs : Identifier.from_str s =
            (match Identifier.validate ⟨a, b⟩ with
             | .error e => .error e
             | .ok _ => .ok ⟨a, b⟩) := by
          unfold Identifier.from_str
          rw [hs]
        have hcount : s.count ':' = 1 := by
          rw [hs] at hlen; simp at hlen; omega
        have hchar : (∀ ch ∈ s, ch = ':' ∨ ch ∈ validChars) ↔
            ((∀ ch ∈ a, ch ∈ validChars) ∧ (∀ ch ∈ b, ch ∈ validChars)) := by
          subst hdec
          constructor
          · intro h
            constructor
            · intro ch hch
              rcases h ch (by simp [hch]) with h' | h'
              · exact absurd h' (by rintro rfl; exact hna hch)
              · exact h'
            · intro ch hch
              rcases h ch (by simp [hch]) with h' | h'
              · exact absurd h' (by rintro rfl; exact hnb hch)
              · exact h'
          · rintro ⟨h1, h2⟩ ch hch
            simp at hch
            rcases hch with hch | hch | hch
            · exact Or.inr (h1 ch hch)
            · exact Or.inl hch
            · exact Or.inr (h2 ch hch)
        rw [hfs]
        cases hv : Identifier.validate ⟨a, b⟩ with
        | error e =>
          have hnotok : ¬ ((∀ ch ∈ a, ch ∈ validChars) ∧
              (∀ ch ∈ b, ch ∈ validChars)) := by
            intro hcontra
            have hvo := (validate_ok_iff ⟨a, b⟩).mpr hcontra
            rw [hv] at hvo
            exact absurd hvo (by simp)
          constructor
          · constructor
            · intro h; simp [Except.isOk, Except.toBool] at h
            · rintro ⟨-, h2⟩
              rw [hchar] at h2
              exact absurd h2 hnotok
          · intro i hi; exact absurd hi (by simp)
        | ok u =>
          have hok : ((∀ ch ∈ a, ch ∈ validChars) ∧
              (∀ ch ∈ b, ch ∈ validChars)) :=
            (validate_ok_iff ⟨a, b⟩).mp (by rw [hv])
          constructor
          · simp [Except.isOk, Except.toBool, hcount, hchar, hok]
            exact hok
          · intro i hi
            simp at hi
            subst hi
            exact ⟨hok.1, hok.2, by rw [Identifier.as_string, hdec]⟩
      | cons cc tl3 =>
        have hcount : 2 ≤ s.count ':' := by
          rw [hs] at hlen; simp at hlen; omega
        have hfs : Identifier.from_str s = .error (.TooManyColons s) := by
          unfold Identifier.from_str
          rw [hs]
          simp
        rw [hfs]
        constructor
        · constructor
          · intro h; simp [Except.isOk, Except.toBool] at h
          · rintro ⟨h1, _⟩; omega
        · intro i hi; exact absurd hi (by simp)

/-- C8, witness: the amended theorem applied at `"a:b"`. -/
theorem C8_witness :
    (Identifier.from_str strAB).isOk = true :=
  (C8_theorem strAB).1.mpr (by decide)




theorem firstNoneIdx_some :
    ∀ (l : List (Option Str)) (i : Nat), firstNoneIdx l = some i →
      l.get? i = some none := by
  intro l
  induction l with
  | nil => intro i h; simp [firstNoneIdx] at h
  | cons a t ih =>
    intro i h
    cases a with
    | none =>
      simp [firstNoneIdx] at h
      subst h
      rfl
    | some s =>
      simp [firstNoneIdx] at h
      obtain ⟨j, hj, hji⟩ := h
      subst hji
      simpa using ih j hj

theorem listPosition_found {α : Type} [BEq α] [LawfulBEq α] (a : α) :
    ∀ l : List α, a ∈ l →
      ∃ i, listPosition (fun o => o == a) l = some i ∧ l.get? i = some a := by
  intro l
  induction l with
  | nil => simp
  | cons b t ih =>
    intro h
    by_cases hb : (b == a) = true
    · refine ⟨0, by simp [listPosition, hb], ?_⟩
      simp [eq_of_beq hb]
    · have hat : a ∈ t := by
        rcases List.mem_cons.mp h with h' | h'
        · exact absurd (by simp [h']) hb
        · exact h'
      obtain ⟨i, h1, h2⟩ := ih hat
      refine ⟨i + 1, ?_, by simpa using h2⟩
      simp [listPosition, hb, h1]

theorem palette_insert (ids : List (Option Str)) (s : Str) :
    some s ∈
      (if ids.contains (some s) then ids
       else
         match firstNoneIdx ids with
         | some index => ids.set index (some s)
         | none => ids ++ [some s]) ∧
    (if ids.contains (some s) then ids
     else
       match firstNoneIdx ids with
       | some index => ids.set index (some s)
       | none => ids ++ [some s]).length ≤ ids.length + 1 := by
  by_cases hc : ids.contains (some s)
  · rw [if_pos hc]
    constructor
    · simpa using hc
    · omega
  · rw [if_neg hc]
    cases hf : firstNoneIdx ids with
    | some index =>
      have hidx := firstNoneIdx_some ids index hf
      have hlt : index < ids.length := by
        rcases List.get?_eq_some.mp hidx with ⟨hh, -⟩
        exact hh
      constructor
      · have : (ids.set index (some s)).get? index = some (some s) := by
          rw [List.get?_eq_getElem?]
          simp [List.getElem?_set_self (by simpa using hlt)]
        exact List.get?_mem this
      · simp
    | none =>
      constructor
      · simp
      · simp

theorem add_block_some_eq (reg : Str → Option Block) (c : Chunk) (x y z : Nat)
    (data : Block) (hpos : pos_as_index x y z < c.blocks.len) :
    c.add_block reg x y z (some data) =
      (match listPosition (fun o => o == some data.get_identifier.as_string)
          (if c.ids.contains (some data.get_identifier.as_string) then c.ids
           else
             match firstNoneIdx c.ids with
             | some index =>
               c.ids.set index (some data.get_identifier.as_string)
             | none => c.ids ++ [some data.get_identifier.as_string]) with
       | none => none
       | some idx =>
         some ({ is_empty_field :=
                   (if c.air_count > 0 then c.air_count - 1 else c.air_count) ==
                     c.blocks.len,
                 air_count :=
                   if c.air_count > 0 then c.air_count - 1 else c.air_count,
                 chunk_pos := c.chunk_pos,
                 ids :=
                   if c.ids.contains (some data.get_identifier.as_string) then
                     c.ids
                   else
                     match firstNoneIdx c.ids with
                     | some index =>
                       c.ids.set index (some data.get_identifier.as_string)
                     | none => c.ids ++ [some data.get_identifier.as_string],
                 blocks :=
                   c.blocks.set (pos_as_index x y z) ((idx % 65536 + 1) % 65536) },
               true)) := by
  unfold Chunk.add_block
  rw [if_pos hpos]
  dsimp only
  split_ifs <;> (try rfl) <;> (cases hf : firstNoneIdx c.ids <;> rfl)

theorem add_block_none_noop (reg : Str → Option Block) (c : Chunk)
    (x y z : Nat) (hpos : pos_as_index x y z < c.blocks.len)
    (hget : c.get_block reg x y z = none) :
    c.add_block reg x y z none =
      some ({ c with is_empty_field := c.air_count == c.blocks.len }, true) := by
  unfold Chunk.add_block
  rw [if_pos hpos]
  dsimp only
  rw [hget]

theorem stored_voxel_reads (reg : Str → Option Block) (e : Bool) (ac : Nat)
    (cp : Vec3) (ids : List (Option Str)) (blocks : VecU16) (x y z idx : Nat)
    (s : Str) (hpos : pos_as_index x y z < blocks.len)
    (hget : ids.get? idx = some (some s)) :
    Chunk.get_block reg
      ⟨e, ac, cp, ids, blocks.set (pos_as_index x y z) (idx + 1)⟩ x y z = reg s ∧
    Chunk.has_block_at
      ⟨e, ac, cp, ids, blocks.set (pos_as_index x y z) (idx + 1)⟩ x y z = true := by
  have hloc : Chunk.get_local_block_id
      ⟨e, ac, cp, ids, blocks.set (pos_as_index x y z) (idx + 1)⟩ x y z =
      idx + 1 := by
    unfold Chunk.get_local_block_id
    try dsimp only
    rw [VecU16.len_set, if_pos hpos, VecU16.get_set_self]
  constructor
  · unfold Chunk.get_block
    rw [hloc]
    rw [if_pos (by omega)]
    simp only [Nat.add_sub_cancel]
    try dsimp only
    rw [hget]
  · unfold Chunk.has_block_at
    rw [hloc]
    simp

theorem cleared_voxel_reads (reg : Str → Option Block) (e : Bool) (ac : Nat)
    (cp : Vec3) (ids : List (Option Str)) (blocks : VecU16) (x y z : Nat)
    (hpos : pos_as_index x y z < blocks.len) :
    Chunk.get_block reg
      ⟨e, ac, cp, ids, blocks.set (pos_as_index x y z) 0⟩ x y z = none ∧
    Chunk.has_block_at
      ⟨e, ac, cp, ids, blocks.set (pos_as_index x y z) 0⟩ x y z = false := by
  have hloc : Chunk.get_local_block_id
      ⟨e, ac, cp, ids, blocks.set (pos_as_index x y z) 0⟩ x y z = 0 := by
    unfold Chunk.get_local_block_id
    try dsimp only
    rw [VecU16.len_set, if_pos hpos, VecU16.get_set_self]
  constructor
  · unfold Chunk.get_block
    rw [hloc]
    simp
  · unfold Chunk.has_block_at
    rw [hloc]
    simp


/-- C4, amended: for an in-bounds coordinate of a standard chunk whose
palette has at most 65534 entries: (a) after `add_block(p, Some(block))`
where the registry resolves the block's identifier to `rb`, `get_block(p)`
returns `Some rb` (the registry's block for that identifier) and
`has_block_at(p)` is true, the call returning `true`; (b) if the prior
voxel at `p` is air or resolves in the registry, then a normally-returning
`add_block(p, None)` returns `true` and leaves `get_block(p) = None`,
`has_block_at(p) = false`. -/
theorem C4_theorem (reg : Str → Option Block) (c : Chunk) (x y z : Nat)
    (hlen : c.blocks.len = 4096) (hx : x < 16) (hy : y < 16) (hz : z < 16)
    (hids : c.ids.length ≤ 65534) :
    (∀ block rb : Block, reg block.get_identifier.as_string = some rb →
      ∃ c', c.add_block reg x y z (some block) = some (c', true) ∧
        c'.get_block reg x y z = some rb ∧ c'.has_block_at x y z = true) ∧
    (∀ (c' : Chunk) (r : Bool),
      (c.get_local_block_id x y z = 0 ∨ c.get_block reg x y z ≠ none) →
      c.add_block reg x y z none = some (c', r) →
      r = true ∧ c'.get_block reg x y z = none ∧
        c'.has_block_at x y z = false) := by
  have hpos : pos_as_index x y z < c.blocks.len := by
    rw [hlen]; exact pos_as_index_lt hx hy hz
  constructor
  · intro block rb hreg
    obtain ⟨hmem, hlen1⟩ := palette_insert c.ids block.get_identifier.as_string
    obtain ⟨idx, hfound, hget⟩ :=
      listPosition_found (some block.get_identifier.as_string) _ hmem
    have hidx : idx < 65535 := by
      rcases List.get?_eq_some.mp hget with ⟨hh, -⟩
      omega
    have hstored : (idx % 65536 + 1) % 65536 = idx + 1 := by
      rw [Nat.mod_eq_of_lt (by omega), Nat.mod_eq_of_lt (by omega)]
    rw [add_block_some_eq reg c x y z block hpos, hfound]
    dsimp only
    rw [hstored]
    exact ⟨_, rfl,
      (stored_voxel_reads reg _ _ _ _ c.blocks x y z idx _ hpos hget).1.trans
        hreg,
      (stored_voxel_reads reg _ _ _ _ c.blocks x y z idx _ hpos hget).2⟩
  · intro c' r hprior hadd
    rcases hprior with hv | hsome
    · have hget0 : c.get_block reg x y z = none := by
        unfold Chunk.get_block
        rw [hv]
        simp
      have hb0 : c.has_block_at x y z = false := by
        unfold Chunk.has_block_at
        rw [hv]
        simp
      rw [add_block_none_noop reg c x y z hpos hget0] at hadd
      simp only [Option.some.injEq, Prod.mk.injEq] at hadd
      obtain ⟨hc', hr⟩ := hadd
      subst hc'
      subst hr
      exact ⟨rfl, hget0, hb0⟩
    · cases hcase : c.get_block reg x y z with
      | none => exact absurd hcase hsome
      | some b =>
        rw [add_block_none_eq reg c x y z b hpos hcase] at hadd
        split_ifs at hadd with h1 h2
        · simp only [Option.some.injEq, Prod.mk.injEq] at hadd
          obtain ⟨hc', hr⟩ := hadd
          subst hc'
          subst hr
          exact ⟨rfl, (cleared_voxel_reads reg _ _ _ _ c.blocks x y z hpos).1,
            (cleared_voxel_reads reg _ _ _ _ c.blocks x y z hpos).2⟩
        · simp only [Option.some.injEq, Prod.mk.injEq] at hadd
          obtain ⟨hc', hr⟩ := hadd
          subst hc'
          subst hr
          exact ⟨rfl, (cleared_voxel_reads reg _ _ _ _ c.blocks x y z hpos).1,
            (cleared_voxel_reads reg _ _ _ _ c.blocks x y z hpos).2⟩



/-- C4, witness: the amended theorem applied at `(0,0,0)` of a fresh chunk
with `blocky:stone`. -/
theorem C4_witness :
    (∃ c', (Chunk.new v0).add_block regA 0 0 0 (some blockA) = some (c', true) ∧
      c'.get_block regA 0 0 0 = some blockA ∧ c'.has_block_at 0 0 0 = true) ∧
    (∀ (c' : Chunk) (r : Bool),
      (Chunk.new v0).add_block regA 0 0 0 none = some (c', r) →
      r = true ∧ c'.get_block regA 0 0 0 = none ∧
        c'.has_block_at 0 0 0 = false) :=
  ⟨(C4_theorem regA (Chunk.new v0) 0 0 0 rfl (by decide) (by decide) (by decide)
      (by decide)).1 blockA blockA rfl,
   fun c' r h => (C4_theorem regA (Chunk.new v0) 0 0 0 rfl (by decide)
      (by decide) (by decide) (by decide)).2 c' r (Or.inl rfl) h⟩

theorem get?_set_none_not_some (ids : List (Option Str)) (i : Nat) (s : Str) :
    (ids.set i none).get? i ≠ some (some s) := by
  rw [List.get?_eq_getElem?]
  by_cases hlt : i < ids.length
  · rw [List.getElem?_set_self (by simpa using hlt)]
    simp
  · rw [List.getElem?_eq_none (by simpa using Nat.le_of_not_lt hlt)]
    simp

theorem get?_set_ne' {α : Type} (l : List α) (i j : Nat) (a : α) (h : j ≠ i) :
    (l.set i a).get? j = l.get? j := by
  rw [List.get?_eq_getElem?, List.get?_eq_getElem?]
  exact List.getElem?_set_ne (by omega)

theorem palette_distinct_set_none (ids : List (Option Str)) (i : Nat)
    (h : PaletteDistinct ids) : PaletteDistinct (ids.set i none) := by
  intro a b s hab ha hb
  by_cases hai : a = i
  · subst hai
    exact get?_set_none_not_some ids a s ha
  · by_cases hbi : b = i
    · subst hbi
      exact get?_set_none_not_some ids b s hb
    · rw [get?_set_ne' ids i a none hai] at ha
      rw [get?_set_ne' ids i b none hbi] at hb
      exact h a b s hab ha hb

theorem palette_distinct_insert (ids : List (Option Str)) (s : Str)
    (h : PaletteDistinct ids) (hnm : some s ∉ ids) :
    PaletteDistinct
      (match firstNoneIdx ids with
       | some index => ids.set index (some s)
       | none => ids ++ [some s]) := by
  cases hf : firstNoneIdx ids with
  | some index =>
    have hnone := firstNoneIdx_some ids index hf
    have hlt : index < ids.length := by
      rcases List.get?_eq_some.mp hnone with ⟨hh, -⟩
      exact hh
    intro a b t hab ha hb
    by_cases hai : a = index
    · subst hai
      have hseta : (ids.set a (some s)).get? a = some (some s) := by
        rw [List.get?_eq_getElem?]
        simp [List.getElem?_set_self (by simpa using hlt)]
      rw [hseta] at ha
      have hts : s = t := by simpa using ha
      subst hts
      have hbne : b ≠ a := by omega
      rw [get?_set_ne' ids a b (some s) hbne] at hb
      exact hnm (List.get?_mem hb)
    · by_cases hbi : b = index
      · subst hbi
        have hsetb : (ids.set b (some s)).get? b = some (some s) := by
          rw [List.get?_eq_getElem?]
          simp [List.getElem?_set_self (by simpa using hlt)]
        rw [hsetb] at hb
        have hts : s = t := by simpa using hb
        subst hts
        rw [get?_set_ne' ids b a (some s) hai] at ha
        exact hnm (List.get?_mem ha)
      · rw [get?_set_ne' ids index a (some s) hai] at ha
        rw [get?_set_ne' ids index b (some s) hbi] at hb
        exact h a b t hab ha hb
  | none =>
    intro a b t hab ha hb
    have hblen : b < ids.length + 1 := by
      rcases List.get?_eq_some.mp hb with ⟨hh, -⟩
      simpa using hh
    by_cases hbl : b < ids.length
    · have hal : a < ids.length := by omega
      rw [List.get?_eq_getElem?, List.getElem?_append_left hbl] at hb
      rw [List.get?_eq_getElem?, List.getElem?_append_left hal] at ha
      rw [← List.get?_eq_getElem?] at ha hb
      exact h a b t hab ha hb
    · have hbeq : b = ids.length := by omega
      have hal : a < ids.length := by omega
      rw [List.get?_eq_getElem?, List.getElem?_append_left hal,
        ← List.get?_eq_getElem?] at ha
      rw [List.get?_eq_getElem?, hbeq] at hb
      rw [List.getElem?_append_right (by omega)] at hb
      simp at hb
      subst hb
      exact hnm (List.get?_mem ha)

theorem add_block_oob (reg : Str → Option Block) (c : Chunk) (x y z : Nat)
    (b : Option Block) (hpos : ¬ pos_as_index x y z < c.blocks.len) :
    c.add_block reg x y z b = some (c, false) := by
  unfold Chunk.add_block
  rw [if_neg hpos]

/-- C10: in every chunk state reachable from `Chunk::new` by non-panicking
`add_block` / `remove_block` calls, the `Some` entries of the palette are
pairwise distinct: no identifier string occupies two palette slots at once. -/
theorem C10_theorem (reg : Str → Option Block) (c : Chunk)
    (h : Reachable reg c) : PaletteDistinct c.ids := by
  induction h with
  | new pos =>
    intro a b s hab ha hb
    simp [Chunk.new] at ha
  | step c0 c' x y z b r hreach hstep ih =>
    by_cases hpos : pos_as_index x y z < c0.blocks.len
    · cases b with
      | some data =>
        rw [add_block_some_eq reg c0 x y z data hpos] at hstep
        cases hfound : listPosition
            (fun o => o == some data.get_identifier.as_string)
            (if c0.ids.contains (some data.get_identifier.as_string) then
              c0.ids
             else
               match firstNoneIdx c0.ids with
               | some index =>
                 c0.ids.set index (some data.get_identifier.as_string)
               | none =>
                 c0.ids ++ [some data.get_identifier.as_string]) with
        | none =>
          rw [hfound] at hstep
          exact absurd hstep (by simp)
        | some idx =>
          rw [hfound] at hstep
          simp only [Option.some.injEq, Prod.mk.injEq] at hstep
          obtain ⟨hc', -⟩ := hstep
          subst hc'
          show PaletteDistinct
            (if c0.ids.contains (some data.get_identifier.as_string) then
              c0.ids
             else
               match firstNoneIdx c0.ids with
               | some index =>
                 c0.ids.set index (some data.get_identifier.as_string)
               | none => c0.ids ++ [some data.get_identifier.as_string])
          by_cases hc : c0.ids.contains (some data.get_identifier.as_string)
          · rw [if_pos hc]
            exact ih
          · rw [if_neg hc]
            have hnm : some data.get_identifier.as_string ∉ c0.ids := by
              simpa [List.contains] using hc
            exact palette_distinct_insert c0.ids _ ih hnm
      | none =>
        cases hget : c0.get_block reg x y z with
        | none =>
          rw [add_block_none_noop reg c0 x y z hpos hget] at hstep
          simp only [Option.some.injEq, Prod.mk.injEq] at hstep
          obtain ⟨hc', -⟩ := hstep
          subst hc'
          exact ih
        | some bb =>
          rw [add_block_none_eq reg c0 x y z bb hpos hget] at hstep
          split_ifs at hstep with h1 h2
          · simp only [Option.some.injEq, Prod.mk.injEq] at hstep
            obtain ⟨hc', -⟩ := hstep
            subst hc'
            exact ih
          · simp only [Option.some.injEq, Prod.mk.injEq] at hstep
            obtain ⟨hc', -⟩ := hstep
            subst hc'
            exact palette_distinct_set_none c0.ids _ ih
    · rw [add_block_oob reg c0 x y z b hpos] at hstep
      simp only [Option.some.injEq, Prod.mk.injEq] at hstep
      obtain ⟨hc', -⟩ := hstep
      subst hc'
      exact ih

/-- C10, witness: the invariant at the reachable state obtained by one
`add_block` from a fresh chunk. -/
theorem C10_witness : PaletteDistinct cStone.ids :=
  C10_theorem regA cStone
    (Reachable.step (Chunk.new v0) cStone 0 0 0 (some blockA) true
      (Reachable.new v0) add_stone)
theorem MeshWF_empty : MeshWF MeshData.empty 0 := by
  refine ⟨rfl, rfl, rfl, rfl, rfl⟩

theorem facePattern_succ (k : Nat) :
    facePattern (k + 1) =
      facePattern k ++ [0, 1, 2, 2, 3, 0].map (· + 4 * k) := by
  unfold facePattern
  rw [List.range_succ, List.flatMap_append]
  simp

theorem build_face_wf (acc : MeshData) (k : Nat) (hwf : MeshWF acc k)
    (block_face : List (Vec3 × Vec3)) (block_uvs : List (ℚ × ℚ))
    (block_pos : Vec3) (hface : block_face.length = 4)
    (huvs : block_uvs.length = 4) :
    MeshWF (build_face acc block_face block_uvs block_pos) (k + 1) := by
  obtain ⟨h1, h2, h3, h4, h5⟩ := hwf
  refine ⟨?_, ?_, ?_, ?_, ?_⟩
  · simp [build_face, h1, hface]; omega
  · simp [build_face, h2, hface]; omega
  · simp [build_face, h3, huvs]; omega
  · simp [build_face, h4]; omega
  · show acc.indices ++ [0, 1, 2, 2, 3, 0].map (· + acc.positions.length) =
      facePattern (k + 1)
    rw [facePattern_succ, h5, h1]

theorem cond_face_wf (acc : MeshData) (k : Nat) (hwf : MeshWF acc k)
    (cond : Prop) [Decidable cond] (block_face : List (Vec3 × Vec3))
    (block_uvs : List (ℚ × ℚ)) (block_pos : Vec3)
    (hface : block_face.length = 4) (huvs : block_uvs.length = 4) :
    MeshWF (if cond then build_face acc block_face block_uvs block_pos
            else acc) (k + if cond then 1 else 0) := by
  split_ifs with h
  · exact build_face_wf acc k hwf block_face block_uvs block_pos hface huvs
  · exact hwf

theorem six_faces_wf (acc : MeshData) (k : Nat) (hwf : MeshWF acc k)
    (cull_code : Nat) (block : Block) (block_pos : Vec3) :
    MeshWF
      (let a1 :=
        if cull_code &&& cullU = cullU then
          build_face acc VERTICES_TOP block.get_uvs_top block_pos
        else acc
       let a2 :=
        if cull_code &&& cullD = cullD then
          build_face a1 VERTICES_BOTTOM block.get_uvs_bottom block_pos
        else a1
       let a3 :=
        if cull_code &&& cullR = cullR then
          build_face a2 VERTICES_RIGHT block.get_uvs_right block_pos
        else a2
       let a4 :=
        if cull_code &&& cullL = cullL then
          build_face a3 VERTICES_LEFT block.get_uvs_left block_pos
        else a3
       let a5 :=
        if cull_code &&& cullF = cullF then
          build_face a4 VERTICES_FRONT block.get_uvs_front block_pos
        else a4
       if cull_code &&& cullB = cullB then
         build_face a5 VERTICES_BACK block.get_uvs_back block_pos
       else a5)
      (k + bitsOn cull_code) := by
  have w1 := cond_face_wf acc k hwf (cull_code &&& cullU = cullU)
    VERTICES_TOP block.get_uvs_top block_pos rfl rfl
  have w2 := cond_face_wf _ _ w1 (cull_code &&& cullD = cullD)
    VERTICES_BOTTOM block.get_uvs_bottom block_pos rfl rfl
  have w3 := cond_face_wf _ _ w2 (cull_code &&& cullR = cullR)
    VERTICES_RIGHT block.get_uvs_right block_pos rfl rfl
  have w4 := cond_face_wf _ _ w3 (cull_code &&& cullL = cullL)
    VERTICES_LEFT block.get_uvs_left block_pos rfl rfl
  have w5 := cond_face_wf _ _ w4 (cull_code &&& cullF = cullF)
    VERTICES_FRONT block.get_uvs_front block_pos rfl rfl
  have w6 := cond_face_wf _ _ w5 (cull_code &&& cullB = cullB)
    VERTICES_BACK block.get_uvs_back block_pos rfl rfl
  have harith :
      k + (if cull_code &&& cullU = cullU then 1 else 0) +
        (if cull_code &&& cullD = cullD then 1 else 0) +
        (if cull_code &&& cullR = cullR then 1 else 0) +
        (if cull_code &&& cullL = cullL then 1 else 0) +
        (if cull_code &&& cullF = cullF then 1 else 0) +
        (if cull_code &&& cullB = cullB then 1 else 0) =
      k + bitsOn cull_code := by
    unfold bitsOn
    omega
  rw [← harith]
  exact w6

theorem processVoxel_wf (reg : Str → Option Block) (c : Chunk) (x y z : Nat)
    (hlen : c.blocks.len = 4096) (hx : x < 16) (hy : y < 16) (hz : z < 16)
    (hres : 0 < c.blocks.get (pos_as_index x y z) →
      (resolveLocalId reg c.ids
        (c.blocks.get (pos_as_index x y z))).isSome = true)
    (acc : MeshData) (k : Nat) (hwf : MeshWF acc k) :
    ∃ m, processVoxel reg c x y z acc = some m ∧
      MeshWF m (k + voxelFaces reg c x y z) := by
  have hlt : pos_as_index x y z < 4096 := pos_as_index_lt hx hy hz
  have hngt : ¬ pos_as_index x y z > c.blocks.len := by omega
  have hget? : c.blocks.get? (pos_as_index x y z) =
      some (c.blocks.get (pos_as_index x y z)) := by
    unfold VecU16.get?
    rw [if_pos (by omega)]
  unfold processVoxel voxelFaces
  simp only [gt_iff_lt]
  rw [if_neg hngt, hget?]
  dsimp only
  by_cases hv : 0 < c.blocks.get (pos_as_index x y z)
  · rw [if_pos hv, if_pos hv]
    cases hr : resolveLocalId reg c.ids (c.blocks.get (pos_as_index x y z)) with
    | none =>
      rw [hr] at hres
      simp at hres
      omega
    | some ob =>
      cases ob with
      | none =>
        exact ⟨acc, rfl, by simpa [resolvesToBlock] using hwf⟩
      | some block =>
        refine ⟨_, rfl, ?_⟩
        have := six_faces_wf acc k hwf (cull_neighbors c x y z) block
          (c.local_to_world_pos x y z)
        simpa [resolvesToBlock] using this
  · rw [if_neg hv, if_neg hv]
    exact ⟨acc, rfl, by simpa using hwf⟩

theorem fold_wf (reg : Str → Option Block) (c : Chunk)
    (hlen : c.blocks.len = 4096)
    (hres : ∀ x y z : Nat, x < 16 → y < 16 → z < 16 →
      0 < c.blocks.get (pos_as_index x y z) →
      (resolveLocalId reg c.ids
        (c.blocks.get (pos_as_index x y z))).isSome = true) :
    ∀ l : List (Nat × Nat × Nat),
      (∀ t ∈ l, t.1 < 16 ∧ t.2.1 < 16 ∧ t.2.2 < 16) →
      ∀ acc k, MeshWF acc k →
      ∃ m, (l.foldlM (fun acc t => processVoxel reg c t.2.1 t.2.2 t.1 acc)
              acc) = some m ∧
        MeshWF m
          (k + (l.map (fun t => voxelFaces reg c t.2.1 t.2.2 t.1)).sum) := by
  intro l
  induction l with
  | nil =>
    intro hb acc k hwf
    exact ⟨acc, rfl, by simpa using hwf⟩
  | cons t ts ih =>
    intro hb acc k hwf
    obtain ⟨hz16, hx16, hy16⟩ := hb t (by simp)
    obtain ⟨m1, hm1, hwf1⟩ := processVoxel_wf reg c t.2.1 t.2.2 t.1 hlen hx16
      hy16 hz16 (hres t.2.1 t.2.2 t.1 hx16 hy16 hz16) acc k hwf
    obtain ⟨m, hm, hwfm⟩ := ih (fun u hu => hb u (by simp [hu])) m1 _ hwf1
    refine ⟨m, ?_, ?_⟩
    · rw [List.foldlM_cons, hm1]
      simpa using hm
    · simpa [Nat.add_assoc] using hwfm

theorem chunkCoords_bounds :
    ∀ t ∈ chunkCoords, t.1 < 16 ∧ t.2.1 < 16 ∧ t.2.2 < 16 := by
  intro t ht
  unfold chunkCoords CHUNK_SIZE at ht
  simp only [List.mem_flatMap, List.mem_map, List.mem_range] at ht
  obtain ⟨z, hz, x, hx, y, hy, rfl⟩ := ht
  exact ⟨hz, hx, hy⟩

theorem resolvesToBlock_isSome (r : Option (Option Block))
    (h : resolvesToBlock r = true) : r.isSome = true := by
  cases r with
  | none => simp [resolvesToBlock] at h
  | some ob => simp

/-- C6: if every solid voxel's palette entry resolves in the registry, the
mesh build succeeds and, with `k` the total number of exposed faces (the sum
over solid voxels of the set bits of their cull codes), produces exactly
`4k` positions, `4k` normals, `4k` UVs and `6k` indices, the indices being
the pattern `0,1,2,2,3,0` offset by each face's base vertex `4i` — so each
face's 6 indices reference only its own 4 vertices. -/
theorem C6_theorem (reg : Str → Option Block) (c : Chunk)
    (hlen : c.blocks.len = 4096)
    (hres : ∀ x y z : Nat, x < 16 → y < 16 → z < 16 →
      0 < c.blocks.get (pos_as_index x y z) →
      resolvesToBlock (resolveLocalId reg c.ids
        (c.blocks.get (pos_as_index x y z))) = true) :
    ∃ m, build_chunk_mesh reg c = some m ∧
      m.positions.length = 4 * exposedFaceCount c ∧
      m.normals.length = 4 * exposedFaceCount c ∧
      m.uvs.length = 4 * exposedFaceCount c ∧
      m.indices.length = 6 * exposedFaceCount c ∧
      m.indices = facePattern (exposedFaceCount c) := by
  have hres' : ∀ x y z : Nat, x < 16 → y < 16 → z < 16 →
      0 < c.blocks.get (pos_as_index x y z) →
      (resolveLocalId reg c.ids
        (c.blocks.get (pos_as_index x y z))).isSome = true :=
    fun x y z hx hy hz hv =>
      resolvesToBlock_isSome _ (hres x y z hx hy hz hv)
  obtain ⟨m, hm, hwf⟩ := fold_wf reg c hlen hres' chunkCoords
    chunkCoords_bounds MeshData.empty 0 MeshWF_empty
  have hsum : (chunkCoords.map
      (fun t => voxelFaces reg c t.2.1 t.2.2 t.1)).sum = exposedFaceCount c := by
    unfold exposedFaceCount
    congr 1
    apply List.map_congr_left
    intro t ht
    obtain ⟨h1, h2, h3⟩ := chunkCoords_bounds t ht
    unfold voxelFaces exposedFaces
    dsimp only
    by_cases hv : 0 < c.blocks.get (pos_as_index t.2.1 t.2.2 t.1)
    · rw [if_pos hv, if_pos hv, if_pos (hres _ _ _ h2 h3 h1 hv)]
    · rw [if_neg hv, if_neg hv]
  rw [hsum, Nat.zero_add] at hwf
  obtain ⟨p1, p2, p3, p4, p5⟩ := hwf
  exact ⟨m, hm, p1, p2, p3, p4, p5⟩

/-- C6, witness: the theorem applied to `cOne`, whose one solid voxel
resolves to `blocky:stone`. -/
theorem C6_witness :
    ∃ m, build_chunk_mesh regA cOne = some m ∧
      m.positions.length = 4 * exposedFaceCount cOne ∧
      m.normals.length = 4 * exposedFaceCount cOne ∧
      m.uvs.length = 4 * exposedFaceCount cOne ∧
      m.indices.length = 6 * exposedFaceCount cOne ∧
      m.indices = facePattern (exposedFaceCount cOne) :=
  C6_theorem regA cOne rfl (by
    intro x y z hx hy hz hv
    by_cases h : pos_as_index x y z = pos_as_index 1 0 0
    · rw [h]
      decide
    · exfalso
      have h0 : cOne.blocks.get (pos_as_index x y z) = 0 := by
        rw [show cOne.blocks =
          (VecU16.replicate 4096 0).set (pos_as_index 1 0 0) 1 from rfl]
        rw [VecU16.get_set_ne _ _ h]
        rfl
      omega)

/-- C9: a solid voxel whose local id does not resolve (palette slot `None`,
or a well-formed identifier missing from the registry — both are
`resolveLocalId = some none`) contributes no geometry: the loop body returns
the accumulator unchanged for that voxel, and, provided every other solid
voxel reaches one of the non-panicking resolution outcomes, the whole
`build_chunk_mesh` still returns a mesh (no panic, no hard failure). -/
theorem C9_theorem (reg : Str → Option Block) (c : Chunk) (x y z : Nat)
    (hlen : c.blocks.len = 4096) (hx : x < 16) (hy : y < 16) (hz : z < 16)
    (hall : ∀ x' y' z' : Nat, x' < 16 → y' < 16 → z' < 16 →
      0 < c.blocks.get (pos_as_index x' y' z') →
      (resolveLocalId reg c.ids
        (c.blocks.get (pos_as_index x' y' z'))).isSome = true)
    (hv : 0 < c.blocks.get (pos_as_index x y z))
    (hdesync : resolveLocalId reg c.ids
      (c.blocks.get (pos_as_index x y z)) = some none) :
    (∀ acc, processVoxel reg c x y z acc = some acc) ∧
    ∃ m, build_chunk_mesh reg c = some m := by
  constructor
  · intro acc
    have hlt : pos_as_index x y z < 4096 := pos_as_index_lt hx hy hz
    have hngt : ¬ pos_as_index x y z > c.blocks.len := by omega
    have hget? : c.blocks.get? (pos_as_index x y z) =
        some (c.blocks.get (pos_as_index x y z)) := by
      unfold VecU16.get?
      rw [if_pos (by omega)]
    unfold processVoxel
    simp only [gt_iff_lt]
    rw [if_neg hngt, hget?]
    dsimp only
    rw [if_pos hv, hdesync]
  · obtain ⟨m, hm, -⟩ := fold_wf reg c hlen hall chunkCoords
      chunkCoords_bounds MeshData.empty 0 MeshWF_empty
    exact ⟨m, hm⟩

/-- C9, witness: the theorem applied to `cDesync`, whose one solid voxel has
a freed palette slot. -/
theorem C9_witness :
    (∀ acc, processVoxel regA cDesync 1 0 0 acc = some acc) ∧
    ∃ m, build_chunk_mesh regA cDesync = some m :=
  C9_theorem regA cDesync 1 0 0 rfl (by decide) (by decide) (by decide)
    (by
      intro x y z hx hy hz hv
      by_cases h : pos_as_index x y z = pos_as_index 1 0 0
      · rw [h]
        decide
      · exfalso
        have h0 : cDesync.blocks.get (pos_as_index x y z) = 0 := by
          rw [show cDesync.blocks =
            (VecU16.replicate 4096 0).set (pos_as_index 1 0 0) 1 from rfl]
          rw [VecU16.get_set_ne _ _ h]
          rfl
        omega)
    (by decide) (by decide)

end Blocks
